import Mathlib

/-!
Shallow embedding of `src/SharedString/SharedString.cpp`.

The program is a string-interning pool `SharedString<TChar>`:
a process-wide table (`SharedStorage`) maps string content to a unique
reference-counted record (`SharedData`), and the handle type
(`SharedString`) holds a pointer to either a live record or a statically
allocated empty singleton.

Modelling choices:
* characters (`TChar`) are `Nat`; string contents are `List Nat`;
* heap addresses of `SharedData` records are `Nat`, with `0` reserved for
  the static `EmptyBuffer` singleton and fresh records numbered from
  `nextAddr`;
* the `std::unordered_map<basic_string_view, unique_ptr<SharedData>>` is an
  association list keyed by views; a view is a data pointer (`KeyPtr`:
  either the caller's input buffer or a record's own payload) together
  with the character sequence it denotes; lookups compare views by value,
  as `unordered_map` does;
* `uint32_t` fields (`RefCount`, `Length`) hold values reduced modulo
  `2 ^ 32`, and every `uint32_t(x)` conversion in the source becomes an
  explicit `% 2 ^ 32`;
* the mutex is modelled by reporting, from `RemoveString`, whether the
  locked section was entered (the only conditionally locked operation).
-/

namespace SharedStringModel

/-- String contents: the element type `TChar` is modelled as `Nat`. -/
abbrev Content := List Nat

/-- The modulus of the `uint32_t` fields `RefCount` and `Length`. -/
def U32 : Nat := 4294967296

/-- Truncation to `uint32_t`, as performed by every `uint32_t(x)` cast. -/
def u32 (n : Nat) : Nat := n % U32

/-- One canonical record: `SharedString<TChar>::SharedData`.
`refCount` and `length` are the two `uint32_t` header fields; `payload`
is the character buffer that physically follows the header (the source
derives its address from `this` at a constant offset). -/
structure SharedData where
  refCount : Nat
  length : Nat
  payload : Content
deriving Repr, DecidableEq

/-- The record constructor `SharedData::SharedData(Str, StrLength)`:
sets `RefCount` to 1 and `Length` to `StrLength`, `memcpy`s `StrLength`
elements from `Str` into the trailing buffer and writes one terminator. -/
def SharedData.init (str : Content) (strLength : Nat) : SharedData :=
  { refCount := 1, length := strLength, payload := str.take strLength ++ [0] }

/-- `SharedData::IncRefCount`: `++RefCount` on an `atomic<uint32_t>`. -/
def SharedData.inc (d : SharedData) : SharedData :=
  { d with refCount := u32 (d.refCount + 1) }

/-- The value returned by `SharedData::DecRefCount`: `--RefCount` on an
`atomic<uint32_t>` yields the post-decrement value, wrapping modulo
`2 ^ 32`. -/
def SharedData.decVal (d : SharedData) : Nat := u32 (d.refCount + (U32 - 1))

/-- The record with its counter decremented (the store half of
`DecRefCount`). -/
def SharedData.dec (d : SharedData) : SharedData :=
  { d with refCount := d.decVal }

/-- The character sequence denoted by
`basic_string_view(d.GetBuffer(), d.GetLength())`. -/
def SharedData.content (d : SharedData) : Content := d.payload.take d.length

/-- The data pointer of a `basic_string_view` used as a table key: either
some caller-supplied input buffer (identified by a `Nat` tag) or the
payload of the record at a given address. -/
inductive KeyPtr where
  | callerBuf (id : Nat)
  | payloadOf (addr : Nat)
deriving Repr, DecidableEq

/-- A `basic_string_view` key: its data pointer and the character
sequence it denotes. `unordered_map` compares keys by `val`. -/
structure ViewKey where
  ptr : KeyPtr
  val : Content
deriving Repr, DecidableEq

/-- The pool `SharedString<TChar>::SharedStorage` together with the heap
of records it owns: `recs` is the set of live `SharedData` allocations
(address, record), `table` is the `unordered_map` contents, `nextAddr`
generates fresh addresses (starting at 1; address 0 is the static
`EmptyBuffer`). -/
structure PoolState where
  recs : List (Nat × SharedData)
  table : List (ViewKey × Nat)
  nextAddr : Nat
deriving Repr, DecidableEq

/-- The state of the lazily created `StaticSharedStorage` before any
string is interned. -/
def emptyPool : PoolState := { recs := [], table := [], nextAddr := 1 }

/-- Dereference a record address (first binding wins, as for a heap with
distinct addresses). -/
def lookupRec : List (Nat × SharedData) → Nat → Option SharedData
  | [], _ => none
  | r :: rest, a => if r.1 = a then some r.2 else lookupRec rest a

/-- Overwrite the record stored at address `a`. -/
def setRec : List (Nat × SharedData) → Nat → SharedData → List (Nat × SharedData)
  | [], _, _ => []
  | r :: rest, a, d => if r.1 = a then (a, d) :: rest else r :: setRec rest a d

/-- Free the record stored at address `a`. -/
def eraseRec : List (Nat × SharedData) → Nat → List (Nat × SharedData)
  | [], _ => []
  | r :: rest, a => if r.1 = a then rest else r :: eraseRec rest a

/-- `Storage.find(view)`: `unordered_map` lookup, comparing keys by
value. -/
def findVal : List (ViewKey × Nat) → Content → Option Nat
  | [], _ => none
  | e :: rest, v => if e.1.val = v then some e.2 else findVal rest v

/-- `Storage.erase(Storage.find(view))`: remove the entry whose key value
is `v` (no-op when absent; the source would have undefined behaviour
there, which is unreachable under the pool invariant). -/
def eraseVal : List (ViewKey × Nat) → Content → List (ViewKey × Nat)
  | [], _ => []
  | e :: rest, v => if e.1.val = v then rest else e :: eraseVal rest v

/-- `SharedStorage::AddString(Str, Length)`, called with the caller's
buffer `strBuf` holding contents `str` and the already-truncated
`uint32_t` length `len`.  Under the mutex: look the view up by value; on
a hit, `IncRefCount` the found record and return it; on a miss, allocate
a fresh `SharedData` and `emplace` it keyed by `StringView` — the view
over the *caller's* buffer `Str`, constructed at the top of the function
— then return it.  Returns the new pool state and the record address. -/
def AddString (s : PoolState) (strBuf : Nat) (str : Content) (len : Nat) :
    PoolState × Nat :=
  let v := str.take len
  match findVal s.table v with
  | some a =>
    match lookupRec s.recs a with
    | some d => ({ s with recs := setRec s.recs a d.inc }, a)
    | none => (s, a)
  | none =>
    let a := s.nextAddr
    let d := SharedData.init str len
    ({ recs := (a, d) :: s.recs,
       table := (⟨KeyPtr.callerBuf strBuf, v⟩, a) :: s.table,
       nextAddr := a + 1 }, a)

/-- `SharedStorage::RemoveString(Data)`: decrement the refcount without
the lock; only when the post-decrement value is 0, take the lock, erase
the entry found by the view over the record's own buffer, and free the
record.  The returned `Bool` reports whether the locked section was
entered. -/
def RemoveString (s : PoolState) (a : Nat) : PoolState × Bool :=
  match lookupRec s.recs a with
  | none => (s, false)
  | some d =>
    if d.decVal = 0 then
      ({ s with recs := eraseRec s.recs a,
                table := eraseVal s.table d.content }, true)
    else
      ({ s with recs := setRec s.recs a d.dec }, false)

/-- The address of the static zeroed `EmptyBuffer`, as returned by
`GetEmpty()`. -/
def emptyAddr : Nat := 0

/-- The handle `SharedString<TChar>`: its single field `Data`. -/
structure SharedString where
  data : Nat
deriving Repr, DecidableEq

/-- `CopyRef(Data)`: bump the record's refcount and return the same
pointer.  The source writes `Data->IncRefCounter()`, a member that
`SharedData` does not declare (it declares `IncRefCount`), so this
function fails to compile whenever it is instantiated; it is modelled
via the declared `IncRefCount`, the evident intent. -/
def CopyRef (s : PoolState) (a : Nat) : PoolState × Nat :=
  match lookupRec s.recs a with
  | some d => ({ s with recs := setRec s.recs a d.inc }, a)
  | none => (s, a)

/-- `GetData(Str)`: length is `strlen` of the null-terminated input;
empty input resolves to the empty singleton, otherwise the truncated
length goes to `AddString`. -/
def GetData (s : PoolState) (strBuf : Nat) (str : Content) : PoolState × Nat :=
  if str.length = 0 then (s, emptyAddr)
  else AddString s strBuf str (u32 str.length)

/-- The default constructor `SharedString()`: binds to the empty
singleton, touching neither pool nor lock. -/
def ctorDefault : SharedString := ⟨emptyAddr⟩

/-- `SharedString(const TChar* Str)`: construction from a raw
null-terminated string via `GetData`. -/
def ctorRaw (s : PoolState) (strBuf : Nat) (str : Content) :
    PoolState × SharedString :=
  let r := GetData s strBuf str
  (r.1, ⟨r.2⟩)

/-- `SharedString(const basic_string&)`: empty string binds the
singleton, otherwise `AddString(Str.c_str(), uint32_t(Str.size()))`. -/
def ctorStdString (s : PoolState) (strBuf : Nat) (str : Content) :
    PoolState × SharedString :=
  if str.length = 0 then (s, ⟨emptyAddr⟩)
  else
    let r := AddString s strBuf str (u32 str.length)
    (r.1, ⟨r.2⟩)

/-- `SharedString(const TChar(&Str)[Size])`: the literal constructor.
`lit` is the whole array of `Size` elements (for a string literal this
includes the terminator); the source tests `Size == 0` and otherwise
calls `AddString(Str, uint32_t(Size - 1))`. -/
def ctorLit (s : PoolState) (strBuf : Nat) (lit : Content) :
    PoolState × SharedString :=
  if lit.length = 0 then (s, ⟨emptyAddr⟩)
  else
    let r := AddString s strBuf lit (u32 (lit.length - 1))
    (r.1, ⟨r.2⟩)

/-- The copy constructor `SharedString(const SharedString&)`: empty
source binds the singleton, otherwise `CopyRef`. -/
def ctorCopy (s : PoolState) (src : SharedString) : PoolState × SharedString :=
  if src.data = emptyAddr then (s, ⟨emptyAddr⟩)
  else
    let r := CopyRef s src.data
    (r.1, ⟨r.2⟩)

/-- The move constructor `SharedString(SharedString&&)`: steal the
pointer, reset the source to the singleton.  Returns
(pool, constructed handle, source handle after the move). -/
def ctorMove (s : PoolState) (src : SharedString) :
    PoolState × SharedString × SharedString :=
  (s, ⟨src.data⟩, ⟨emptyAddr⟩)

/-- `SharedString::Clear()`: release the reference unless bound to the
empty singleton.  Also the destructor's entire behaviour. -/
def Clear (s : PoolState) (h : SharedString) : PoolState :=
  if h.data ≠ emptyAddr then (RemoveString s h.data).1 else s

/-- Copy assignment `operator=(const SharedString&)`: no-op when both
handles already hold the same pointer; otherwise `Clear`, then bind as
the copy constructor does.  Returns (pool, assigned handle). -/
def assignCopy (s : PoolState) (dst src : SharedString) :
    PoolState × SharedString :=
  if src.data ≠ dst.data then
    let s1 := Clear s dst
    if src.data = emptyAddr then (s1, ⟨emptyAddr⟩)
    else
      let r := CopyRef s1 src.data
      (r.1, ⟨r.2⟩)
  else (s, dst)

/-- Move assignment `operator=(SharedString&&)`: no-op when both handles
already hold the same pointer; otherwise `Clear`, steal the pointer,
reset the source.  Returns (pool, assigned handle, source handle). -/
def assignMove (s : PoolState) (dst src : SharedString) :
    PoolState × SharedString × SharedString :=
  if src.data ≠ dst.data then (Clear s dst, ⟨src.data⟩, ⟨emptyAddr⟩)
  else (s, dst, src)

/-- `operator=(const basic_string_view&)`: `Clear`, then bind to the
singleton for a zero-length view, else `AddString` with the truncated
view size. -/
def assignView (s : PoolState) (dst : SharedString) (strBuf : Nat)
    (str : Content) : PoolState × SharedString :=
  let s1 := Clear s dst
  if str.length = 0 then (s1, ⟨emptyAddr⟩)
  else
    let r := AddString s1 strBuf str (u32 str.length)
    (r.1, ⟨r.2⟩)

/-- `operator=(const basic_string&)`: delegates to the view assignment
on `basic_string_view(Str.c_str(), Str.size())`. -/
def assignStdString (s : PoolState) (dst : SharedString) (strBuf : Nat)
    (str : Content) : PoolState × SharedString :=
  assignView s dst strBuf str

/-- `operator=(const TChar* Str)`: delegates to the view assignment on
`basic_string_view(Str)`, whose size is `strlen`. -/
def assignRaw (s : PoolState) (dst : SharedString) (strBuf : Nat)
    (str : Content) : PoolState × SharedString :=
  assignView s dst strBuf str

/-- `operator=(const TChar(&Str)[Size])`: delegates to the view
assignment on `basic_string_view(Str, Size)` — the view spans all
`Size` array elements, terminator included. -/
def assignLit (s : PoolState) (dst : SharedString) (strBuf : Nat)
    (lit : Content) : PoolState × SharedString :=
  assignView s dst strBuf lit

/-- `SharedString::Str()`: `basic_string(Data->GetBuffer(),
Data->GetLength())`.  For a handle on the empty singleton the zeroed
static buffer yields `Length = 0` and an empty string. -/
def StrOf (s : PoolState) (h : SharedString) : Content :=
  if h.data = emptyAddr then []
  else
    match lookupRec s.recs h.data with
    | some d => d.content
    | none => []

/-- The address `CStr()` returns, up to the constant header offset: the
identity of the record whose payload it points into. -/
def CStrAddr (h : SharedString) : Nat := h.data

/-- The refcount currently stored in the record at address `a`. -/
def refCountAt (s : PoolState) (a : Nat) : Option Nat :=
  (lookupRec s.recs a).map SharedData.refCount

/-- The content of the record at address `a`, as `(addr, content)`
observations abstracting away refcounts. -/
def recContentAt (s : PoolState) (a : Nat) : Option Content :=
  (lookupRec s.recs a).map SharedData.content

/-- The key values present in the table. -/
def keyVals (t : List (ViewKey × Nat)) : List Content :=
  t.map (fun e => e.1.val)

/-- The addresses of the live records. -/
def recAddrs (r : List (Nat × SharedData)) : List Nat :=
  r.map Prod.fst

/-- Address-and-content observations of the live records. -/
def recContents (r : List (Nat × SharedData)) : List (Nat × Content) :=
  r.map (fun e => (e.1, e.2.content))

/-- Construct `n` handles from the same raw content, one after the
other (the scenario of the refcount-accounting property): returns the
final pool and the list of constructed handles. -/
def ctorN : Nat → PoolState → Nat → Content → PoolState × List SharedString
  | 0, s, _, _ => (s, [])
  | Nat.succ n, s, strBuf, str =>
    let r := ctorRaw s strBuf str
    let rest := ctorN n r.1 strBuf str
    (rest.1, r.2 :: rest.2)

/-- Destroy (run `Clear` on) a handle bound to the same record `n`
times, modelling the destruction of `n` handles that all point at one
record. -/
def clearN : Nat → PoolState → SharedString → PoolState
  | 0, s, _ => s
  | Nat.succ n, s, h => clearN n (Clear s h) h

/-- Well-formedness of the pool: key values are distinct, record
addresses are distinct, every table entry points at a live record whose
content is the key's value, every live record is found by looking its
content up in the table, and addresses are nonzero and below
`nextAddr`. -/
def WF (s : PoolState) : Prop :=
  (keyVals s.table).Nodup ∧
  (recAddrs s.recs).Nodup ∧
  (∀ e ∈ s.table, recContentAt s e.2 = some e.1.val) ∧
  (∀ p ∈ recContents s.recs, findVal s.table p.2 = some p.1) ∧
  (∀ a ∈ recAddrs s.recs, a ≠ 0 ∧ a < s.nextAddr) ∧
  0 < s.nextAddr

instance : DecidablePred WF := by
  intro s
  unfold WF
  infer_instance

end SharedStringModel

namespace SharedStringModel

theorem lookupRec_setRec_self {r : List (Nat × SharedData)} {a : Nat}
    {d : SharedData} (d' : SharedData) (h : lookupRec r a = some d) :
    lookupRec (setRec r a d') a = some d' := by
  induction r with
  | nil => simp [lookupRec] at h
  | cons hd tl ih =>
    by_cases hhd : hd.1 = a
    · simp [lookupRec, setRec, hhd]
    · simp [lookupRec, setRec, hhd] at h ⊢
      exact ih h

theorem lookupRec_setRec_ne {r : List (Nat × SharedData)} {a b : Nat}
    (d' : SharedData) (h : b ≠ a) :
    lookupRec (setRec r a d') b = lookupRec r b := by
  induction r with
  | nil => simp [setRec]
  | cons hd tl ih =>
    by_cases hhd : hd.1 = a
    · simp [lookupRec, setRec, hhd, Ne.symm h]
    · simp only [setRec, if_neg hhd, lookupRec]
      by_cases hb : hd.1 = b <;> simp [hb, ih]

theorem lookupRec_eraseRec_ne {r : List (Nat × SharedData)} {a b : Nat}
    (h : b ≠ a) :
    lookupRec (eraseRec r a) b = lookupRec r b := by
  induction r with
  | nil => simp [eraseRec]
  | cons hd tl ih =>
    by_cases hhd : hd.1 = a
    · simp [lookupRec, eraseRec, hhd, Ne.symm h]
    · simp only [eraseRec, if_neg hhd, lookupRec]
      by_cases hb : hd.1 = b <;> simp [hb, ih]

theorem lookupRec_eq_none {r : List (Nat × SharedData)} {a : Nat} :
    lookupRec r a = none ↔ a ∉ recAddrs r := by
  induction r with
  | nil => simp [lookupRec, recAddrs]
  | cons hd tl ih =>
    by_cases hhd : hd.1 = a
    · simp [lookupRec, recAddrs, hhd]
    · simp [lookupRec, recAddrs, hhd, ih, Ne.symm hhd]

theorem lookupRec_eraseRec_self {r : List (Nat × SharedData)} {a : Nat}
    (h : (recAddrs r).Nodup) :
    lookupRec (eraseRec r a) a = none := by
  induction r with
  | nil => simp [eraseRec, lookupRec]
  | cons hd tl ih =>
    simp only [recAddrs, List.map_cons, List.nodup_cons] at h
    by_cases hhd : hd.1 = a
    · simp only [eraseRec, if_pos hhd]
      rw [lookupRec_eq_none]
      rw [hhd] at h
      exact h.1
    · simp only [eraseRec, if_neg hhd, lookupRec, if_neg hhd]
      exact ih h.2

theorem findVal_eq_none {t : List (ViewKey × Nat)} {v : Content} :
    findVal t v = none ↔ ∀ e ∈ t, e.1.val ≠ v := by
  induction t with
  | nil => simp [findVal]
  | cons hd tl ih =>
    by_cases hhd : hd.1.val = v
    · simp [findVal, hhd]
    · simp [findVal, hhd, ih]

theorem findVal_some_mem {t : List (ViewKey × Nat)} {v : Content} {a : Nat}
    (h : findVal t v = some a) :
    ∃ e, e ∈ t ∧ e.1.val = v ∧ e.2 = a := by
  induction t with
  | nil => simp [findVal] at h
  | cons hd tl ih =>
    by_cases hhd : hd.1.val = v
    · simp only [findVal, if_pos hhd, Option.some.injEq] at h
      exact ⟨hd, List.mem_cons_self hd tl, hhd, h⟩
    · simp only [findVal, if_neg hhd] at h
      obtain ⟨e, he, hv, ha⟩ := ih h
      exact ⟨e, List.mem_cons_of_mem hd he, hv, ha⟩

theorem findVal_eraseVal_self {t : List (ViewKey × Nat)} {v : Content}
    (h : (keyVals t).Nodup) :
    findVal (eraseVal t v) v = none := by
  induction t with
  | nil => simp [eraseVal, findVal]
  | cons hd tl ih =>
    simp only [keyVals, List.map_cons, List.nodup_cons] at h
    by_cases hhd : hd.1.val = v
    · simp only [eraseVal, if_pos hhd]
      rw [findVal_eq_none]
      intro e he
      rw [hhd] at h
      intro hev
      exact h.1 (by
        simp only [keyVals, List.mem_map]
        exact ⟨e, he, hev⟩)
    · simp only [eraseVal, if_neg hhd, findVal, if_neg hhd]
      exact ih h.2

theorem recAddrs_setRec (r : List (Nat × SharedData)) (a : Nat)
    (d : SharedData) : recAddrs (setRec r a d) = recAddrs r := by
  induction r with
  | nil => simp [setRec]
  | cons hd tl ih =>
    by_cases hhd : hd.1 = a
    · simp [setRec, recAddrs, hhd]
    · simp [setRec, recAddrs, hhd] at ih ⊢
      exact ih

theorem recContents_setRec_inc {r : List (Nat × SharedData)} {a : Nat}
    {d : SharedData} (h : lookupRec r a = some d) :
    recContents (setRec r a d.inc) = recContents r := by
  induction r with
  | nil => simp [lookupRec] at h
  | cons hd tl ih =>
    by_cases hhd : hd.1 = a
    · simp only [lookupRec, if_pos hhd, Option.some.injEq] at h
      simp [setRec, recContents, hhd, ← h, SharedData.inc, SharedData.content]
    · simp only [lookupRec, if_neg hhd] at h
      simp [setRec, recContents, hhd] at ih ⊢
      exact ih h

theorem lookupRec_mem {r : List (Nat × SharedData)} {a : Nat}
    {d : SharedData} (h : lookupRec r a = some d) : (a, d) ∈ r := by
  induction r with
  | nil => simp [lookupRec] at h
  | cons hd tl ih =>
    obtain ⟨b, e⟩ := hd
    by_cases hhd : b = a
    · simp only [lookupRec, if_pos hhd, Option.some.injEq] at h
      subst hhd
      subst h
      exact List.mem_cons_self (b, e) tl
    · simp only [lookupRec, if_neg hhd] at h
      exact List.mem_cons_of_mem (b, e) (ih h)

theorem mem_recContents {r : List (Nat × SharedData)} {a : Nat}
    {d : SharedData} (h : (a, d) ∈ r) : (a, d.content) ∈ recContents r := by
  simp only [recContents, List.mem_map]
  exact ⟨(a, d), h, rfl⟩

theorem recContentAt_eq {s : PoolState} {a : Nat} {d : SharedData}
    (h : lookupRec s.recs a = some d) :
    recContentAt s a = some d.content := by
  simp [recContentAt, h]

end SharedStringModel

namespace SharedStringModel

theorem SharedData.content_inc (d : SharedData) : d.inc.content = d.content := by
  simp [SharedData.inc, SharedData.content]

theorem SharedData.content_init {str : Content} {len : Nat}
    (h : len ≤ str.length) :
    (SharedData.init str len).content = str.take len := by
  simp only [SharedData.init, SharedData.content]
  rw [List.take_append_of_le_length (by simp [List.length_take]; omega)]
  simp [List.take_take]

theorem AddString_hit {s : PoolState} {str : Content} {len a : Nat}
    {d : SharedData} (strBuf : Nat)
    (hf : findVal s.table (str.take len) = some a)
    (hl : lookupRec s.recs a = some d) :
    AddString s strBuf str len = ({ s with recs := setRec s.recs a d.inc }, a) := by
  simp [AddString, hf, hl]

theorem AddString_miss {s : PoolState} {str : Content} {len : Nat}
    (strBuf : Nat) (hf : findVal s.table (str.take len) = none) :
    AddString s strBuf str len =
      ({ recs := (s.nextAddr, SharedData.init str len) :: s.recs,
         table := (⟨KeyPtr.callerBuf strBuf, str.take len⟩, s.nextAddr) :: s.table,
         nextAddr := s.nextAddr + 1 }, s.nextAddr) := by
  simp [AddString, hf]

theorem AddString_findVal (s : PoolState) (strBuf : Nat) (str : Content)
    (len : Nat) :
    findVal (AddString s strBuf str len).1.table (str.take len)
      = some (AddString s strBuf str len).2 := by
  cases hf : findVal s.table (str.take len) with
  | none => rw [AddString_miss strBuf hf]; simp [findVal]
  | some a =>
    cases hl : lookupRec s.recs a with
    | none => simp [AddString, hf, hl]
    | some d => rw [AddString_hit strBuf hf hl]; simpa using hf

theorem WF_findVal_lookup {s : PoolState} {v : Content} {a : Nat}
    (hw : WF s) (hf : findVal s.table v = some a) :
    ∃ d, lookupRec s.recs a = some d ∧ d.content = v := by
  obtain ⟨e, he, hev, hea⟩ := findVal_some_mem hf
  have h3 := hw.2.2.1 e he
  rw [hea] at h3
  simp only [recContentAt] at h3
  cases hl : lookupRec s.recs a with
  | none => rw [hl] at h3; simp at h3
  | some d =>
    rw [hl] at h3
    have h3x : d.content = e.1.val := by simpa using h3
    exact ⟨d, rfl, by rw [h3x, hev]⟩

theorem mem_recAddrs_of_lookup {r : List (Nat × SharedData)} {a : Nat}
    {d : SharedData} (h : lookupRec r a = some d) : a ∈ recAddrs r := by
  simp only [recAddrs, List.mem_map]
  exact ⟨(a, d), lookupRec_mem h, rfl⟩

theorem mem_keyVals {t : List (ViewKey × Nat)} {e : ViewKey × Nat}
    (h : e ∈ t) : e.1.val ∈ keyVals t := by
  simp only [keyVals, List.mem_map]
  exact ⟨e, h, rfl⟩

theorem WF_AddString {s : PoolState} {str : Content} {len strBuf : Nat}
    (hw : WF s) (hlen : len ≤ str.length) :
    WF (AddString s strBuf str len).1 := by
  obtain ⟨h1, h2, h3, h4, h5, h6⟩ := hw
  cases hf : findVal s.table (str.take len) with
  | some a =>
    obtain ⟨d, hl, _⟩ := WF_findVal_lookup ⟨h1, h2, h3, h4, h5, h6⟩ hf
    rw [AddString_hit strBuf hf hl]
    refine ⟨h1, ?_, ?_, ?_, ?_, h6⟩
    · simpa [recAddrs_setRec] using h2
    · intro e he
      have := h3 e he
      simp only [recContentAt] at this ⊢
      by_cases hb : e.2 = a
      · rw [hb] at this ⊢
        rw [lookupRec_setRec_self d.inc hl]
        rw [hl] at this
        simpa [SharedData.content_inc] using this
      · rw [lookupRec_setRec_ne d.inc hb]
        exact this
    · intro p hp
      rw [recContents_setRec_inc hl] at hp
      exact h4 p hp
    · intro b hb
      rw [recAddrs_setRec] at hb
      exact h5 b hb
  | none =>
    rw [AddString_miss strBuf hf]
    rw [findVal_eq_none] at hf
    refine ⟨?_, ?_, ?_, ?_, ?_, Nat.succ_pos s.nextAddr⟩
    · simp only [keyVals, List.map_cons, List.nodup_cons]
      refine ⟨?_, h1⟩
      simp only [keyVals, List.mem_map] at *
      rintro ⟨e, he, hev⟩
      exact hf e he hev
    · simp only [recAddrs, List.map_cons, List.nodup_cons]
      refine ⟨?_, h2⟩
      simp only [recAddrs, List.mem_map] at *
      rintro ⟨r, hr, hra⟩
      have := h5 r.1 ⟨r, hr, rfl⟩
      omega
    · intro e he
      rcases List.mem_cons.1 he with he | he
      · subst he
        simp [recContentAt, lookupRec, SharedData.content_init hlen]
      · have hold := h3 e he
        simp only [recContentAt] at hold ⊢
        have hne : e.2 ≠ s.nextAddr := by
          cases hl : lookupRec s.recs e.2 with
          | none => rw [hl] at hold; simp at hold
          | some d =>
            have := h5 e.2 (mem_recAddrs_of_lookup hl)
            omega
        simp only [lookupRec, if_neg (Ne.symm hne)]
        exact hold
    · intro p hp
      simp only [recContents, List.map_cons] at hp
      rcases List.mem_cons.1 hp with hp | hp
      · subst hp
        simp [findVal, SharedData.content_init hlen]
      · have hold := h4 p (by simpa [recContents] using hp)
        have hne : p.2 ≠ str.take len := by
          intro hcontra
          rw [hcontra] at hold
          obtain ⟨e, he, hev, _⟩ := findVal_some_mem hold
          exact hf e he hev
        simp only [findVal, if_neg (by simpa using Ne.symm hne)]
        exact hold
    · intro b hb
      show b ≠ 0 ∧ b < s.nextAddr + 1
      simp only [recAddrs, List.map_cons, List.mem_cons] at hb
      rcases hb with hb | hb
      · omega
      · have := h5 b (by simpa [recAddrs] using hb)
        omega

theorem WF_unique_content {s : PoolState} (hw : WF s) {a1 a2 : Nat}
    {d1 d2 : SharedData} (hm1 : (a1, d1) ∈ s.recs) (hm2 : (a2, d2) ∈ s.recs)
    (hc : d1.content = d2.content) : a1 = a2 := by
  have e1 := hw.2.2.2.1 _ (mem_recContents hm1)
  have e2 := hw.2.2.2.1 _ (mem_recContents hm2)
  simp only at e1 e2
  rw [hc] at e1
  rw [e1] at e2
  exact Option.some.inj e2

end SharedStringModel

namespace SharedStringModel

theorem ctorRaw_nonempty {str : Content} (hne : str ≠ []) (s : PoolState)
    (strBuf : Nat) :
    ctorRaw s strBuf str =
      ((AddString s strBuf str (u32 str.length)).1,
       ⟨(AddString s strBuf str (u32 str.length)).2⟩) := by
  have hz : str.length ≠ 0 := mt List.eq_nil_of_length_eq_zero hne
  simp [ctorRaw, GetData, hz]

/-- Claim C1: for every non-empty content, two handles independently
constructed from it reference the identical canonical record (same
address), the second construction is a lookup hit that increments the
existing record's refcount without allocating (record contents, table
and next address unchanged), the pool stays well formed, and at most one
record exists per distinct content value. -/
theorem claim_C1 (s : PoolState) (buf1 buf2 : Nat) (str : Content)
    (s1 s2 : PoolState) (h1 h2 : SharedString)
    (hw : WF s) (hne : str ≠ [])
    (e1 : ctorRaw s buf1 str = (s1, h1))
    (e2 : ctorRaw s1 buf2 str = (s2, h2)) :
    h2 = h1 ∧
    h1.data ≠ emptyAddr ∧
    CStrAddr h2 = CStrAddr h1 ∧
    recContents s2.recs = recContents s1.recs ∧
    s2.table = s1.table ∧
    s2.nextAddr = s1.nextAddr ∧
    refCountAt s2 h1.data
      = (refCountAt s1 h1.data).map (fun n => u32 (n + 1)) ∧
    WF s2 ∧
    (∀ a1 d1 a2 d2, (a1, d1) ∈ s2.recs → (a2, d2) ∈ s2.recs →
      d1.content = d2.content → a1 = a2) := by
  have hlen : u32 str.length ≤ str.length := Nat.mod_le _ _
  rw [ctorRaw_nonempty hne] at e1 e2
  injection e1 with es1 eh1
  have hw1 : WF s1 := by
    rw [← es1]
    exact WF_AddString hw hlen
  have hfv : findVal s1.table (str.take (u32 str.length)) = some h1.data := by
    rw [← es1, ← eh1]
    exact AddString_findVal s buf1 str (u32 str.length)
  obtain ⟨d, hl, hdc⟩ := WF_findVal_lookup hw1 hfv
  rw [AddString_hit buf2 hfv hl] at e2
  injection e2 with es2 eh2
  have hmem := mem_recAddrs_of_lookup hl
  have hnz := (hw1.2.2.2.2.1 _ hmem).1
  have hw2 : WF s2 := by
    rw [← es2]
    have h2w : WF (AddString s1 buf2 str (u32 str.length)).1 :=
      WF_AddString hw1 hlen
    rw [AddString_hit buf2 hfv hl] at h2w
    exact h2w
  subst es2
  subst eh2
  refine ⟨rfl, hnz, rfl, recContents_setRec_inc hl, rfl, rfl, ?_, hw2, ?_⟩
  · simp only [refCountAt, lookupRec_setRec_self d.inc hl, hl]
    simp [SharedData.inc]
  · intro a1 d1 a2 d2 hm1 hm2 hc
    exact WF_unique_content hw2 hm1 hm2 hc

/-- Witness for C1 at the concrete content "a" interned twice into the
empty pool. -/
theorem claim_C1_witness :
    ((⟨1⟩ : SharedString) = ⟨1⟩) ∧ (⟨1⟩ : SharedString).data ≠ emptyAddr := by
  have h := claim_C1 emptyPool 0 1 [97]
    { recs := [(1, { refCount := 1, length := 1, payload := [97, 0] })],
      table := [({ ptr := KeyPtr.callerBuf 0, val := [97] }, 1)],
      nextAddr := 2 }
    { recs := [(1, { refCount := 2, length := 1, payload := [97, 0] })],
      table := [({ ptr := KeyPtr.callerBuf 0, val := [97] }, 1)],
      nextAddr := 2 }
    ⟨1⟩ ⟨1⟩ (by decide) (by decide) (by decide) (by decide)
  exact ⟨h.1, h.2.1⟩

end SharedStringModel

namespace SharedStringModel

theorem RemoveString_dec {s : PoolState} {a : Nat} {d : SharedData}
    (hl : lookupRec s.recs a = some d) (hnz : d.decVal ≠ 0) :
    RemoveString s a = ({ s with recs := setRec s.recs a d.dec }, false) := by
  simp [RemoveString, hl, hnz]

theorem RemoveString_zero {s : PoolState} {a : Nat} {d : SharedData}
    (hl : lookupRec s.recs a = some d) (hz : d.decVal = 0) :
    RemoveString s a =
      ({ s with recs := eraseRec s.recs a,
                table := eraseVal s.table d.content }, true) := by
  simp [RemoveString, hl, hz]

theorem lookupRec_RemoveString_ne {s : PoolState} {a b : Nat} (h : a ≠ b) :
    lookupRec (RemoveString s b).1.recs a = lookupRec s.recs a := by
  cases hl : lookupRec s.recs b with
  | none => simp [RemoveString, hl]
  | some d =>
    by_cases hz : d.decVal = 0
    · rw [RemoveString_zero hl hz]
      exact lookupRec_eraseRec_ne h
    · rw [RemoveString_dec hl hz]
      exact lookupRec_setRec_ne d.dec h

theorem lookupRec_Clear_ne {s : PoolState} {h : SharedString} {a : Nat}
    (hne : a ≠ h.data) :
    lookupRec (Clear s h).recs a = lookupRec s.recs a := by
  by_cases hz : h.data = emptyAddr
  · simp [Clear, hz]
  · simp only [Clear]
    rw [if_pos hz]
    exact lookupRec_RemoveString_ne hne

theorem refCountAt_Clear_ne {s : PoolState} {h : SharedString} {a : Nat}
    (hne : a ≠ h.data) :
    refCountAt (Clear s h) a = refCountAt s a := by
  simp [refCountAt, lookupRec_Clear_ne hne]

/-- Claim C8: `RemoveString` decrements the refcount outside the locked
section; when the post-decrement value is nonzero the locked section is
never entered and the pool mapping (and every other record) is left
entirely unchanged; when it is zero the locked section is entered, the
entry keyed by the record's content is erased (no lookup of that content
succeeds afterwards) and the record's storage is freed. -/
theorem claim_C8 (s : PoolState) (a : Nat) (d : SharedData)
    (hw : WF s) (hl : lookupRec s.recs a = some d) :
    (d.decVal ≠ 0 →
      (RemoveString s a).2 = false ∧
      (RemoveString s a).1.table = s.table ∧
      (RemoveString s a).1.nextAddr = s.nextAddr ∧
      refCountAt (RemoveString s a).1 a = some d.decVal ∧
      (∀ b, b ≠ a → lookupRec (RemoveString s a).1.recs b = lookupRec s.recs b)) ∧
    (d.decVal = 0 →
      (RemoveString s a).2 = true ∧
      (RemoveString s a).1.table = eraseVal s.table d.content ∧
      findVal (RemoveString s a).1.table d.content = none ∧
      lookupRec (RemoveString s a).1.recs a = none ∧
      (∀ b, b ≠ a → lookupRec (RemoveString s a).1.recs b = lookupRec s.recs b)) := by
  constructor
  · intro hnz
    rw [RemoveString_dec hl hnz]
    refine ⟨rfl, rfl, rfl, ?_, ?_⟩
    · simp only [refCountAt, lookupRec_setRec_self d.dec hl]
      simp [SharedData.dec]
    · intro b hb
      exact lookupRec_setRec_ne d.dec hb
  · intro hz
    rw [RemoveString_zero hl hz]
    refine ⟨rfl, rfl, ?_, ?_, ?_⟩
    · exact findVal_eraseVal_self hw.1
    · exact lookupRec_eraseRec_self hw.2.1
    · intro b hb
      exact lookupRec_eraseRec_ne hb

/-- Witness for C8: a pool holding one record for "a" with refcount 2;
releasing one reference leaves the mapping untouched, releasing the last
erases it. -/
theorem claim_C8_witness :
    (RemoveString
      { recs := [(1, { refCount := 2, length := 1, payload := [97, 0] })],
        table := [({ ptr := KeyPtr.callerBuf 0, val := [97] }, 1)],
        nextAddr := 2 } 1).2 = false := by
  have h := claim_C8
    { recs := [(1, { refCount := 2, length := 1, payload := [97, 0] })],
      table := [({ ptr := KeyPtr.callerBuf 0, val := [97] }, 1)],
      nextAddr := 2 } 1
    { refCount := 2, length := 1, payload := [97, 0] }
    (by decide) (by decide)
  exact (h.1 (by decide)).1

end SharedStringModel

namespace SharedStringModel

/-- Claim C10: the length of an interned content is truncated to 32 bits
before interning: the freshly created record stores `L mod 2^32` in its
length field, `Str()` reads back only that many elements, and the
construction succeeds (is not rejected) for every length. -/
theorem claim_C10 (strBuf : Nat) (str : Content) (hne : str ≠ []) :
    lookupRec (ctorStdString emptyPool strBuf str).1.recs
        (ctorStdString emptyPool strBuf str).2.data
      = some (SharedData.init str (u32 str.length)) ∧
    (SharedData.init str (u32 str.length)).length = u32 str.length ∧
    StrOf (ctorStdString emptyPool strBuf str).1
        (ctorStdString emptyPool strBuf str).2
      = str.take (u32 str.length) ∧
    (ctorStdString emptyPool strBuf str).2.data ≠ emptyAddr ∧
    u32 str.length = str.length % 2 ^ 32 := by
  have hz : str.length ≠ 0 := mt List.eq_nil_of_length_eq_zero hne
  have hstep : ctorStdString emptyPool strBuf str
      = ((AddString emptyPool strBuf str (u32 str.length)).1,
         ⟨(AddString emptyPool strBuf str (u32 str.length)).2⟩) := by
    simp [ctorStdString, hz]
  have hmiss : AddString emptyPool strBuf str (u32 str.length)
      = ({ recs := [(1, SharedData.init str (u32 str.length))],
           table := [(⟨KeyPtr.callerBuf strBuf, str.take (u32 str.length)⟩, 1)],
           nextAddr := 2 }, 1) := by
    rw [@AddString_miss emptyPool str (u32 str.length) strBuf rfl]
    rfl
  have hc : (SharedData.init str (u32 str.length)).content
      = str.take (u32 str.length) :=
    SharedData.content_init (Nat.mod_le str.length U32)
  rw [hstep, hmiss]
  refine ⟨by simp [lookupRec], by simp [SharedData.init], ?_, by simp [emptyAddr], rfl⟩
  simp [StrOf, lookupRec, emptyAddr, hc]

/-- Witness for C10 at the one-character content "5". -/
theorem claim_C10_witness :
    StrOf (ctorStdString emptyPool 0 [5]).1 (ctorStdString emptyPool 0 [5]).2
      = [5].take (u32 1) :=
  (claim_C10 0 [5] (by decide)).2.2.1

/-- Claim C7, counterexample to the unrestricted round trip: a content of
length 2^32 is truncated to length 0 by interning, so `Str()` on the
constructed handle does not return the original content. -/
theorem claim_C7_counterexample :
    StrOf (ctorStdString emptyPool 0 (List.replicate U32 1)).1
        (ctorStdString emptyPool 0 (List.replicate U32 1)).2
      ≠ List.replicate U32 1 := by
  have hlen : (List.replicate U32 1).length = U32 := List.length_replicate _ _
  have hz : (List.replicate U32 1).length ≠ 0 := by
    rw [hlen]
    decide
  have hu : u32 (List.replicate U32 1).length = 0 := by
    rw [hlen]
    simp [u32, Nat.mod_self]
  have hstep : ctorStdString emptyPool 0 (List.replicate U32 1)
      = ((AddString emptyPool 0 (List.replicate U32 1) 0).1,
         ⟨(AddString emptyPool 0 (List.replicate U32 1) 0).2⟩) := by
    simp only [ctorStdString, if_neg hz, hu]
  have hmiss : AddString emptyPool 0 (List.replicate U32 1) 0
      = ({ recs := [(1, SharedData.init (List.replicate U32 1) 0)],
           table := [(⟨KeyPtr.callerBuf 0, (List.replicate U32 1).take 0⟩, 1)],
           nextAddr := 2 }, 1) := by
    rw [@AddString_miss emptyPool (List.replicate U32 1) 0 0 rfl]
    rfl
  have hval : StrOf (ctorStdString emptyPool 0 (List.replicate U32 1)).1
      (ctorStdString emptyPool 0 (List.replicate U32 1)).2 = [] := by
    rw [hstep, hmiss]
    simp [StrOf, lookupRec, emptyAddr, SharedData.content, SharedData.init]
  rw [hval]
  intro h
  have h0 : (0 : Nat) = U32 := by
    simpa [hlen] using congrArg List.length h
  exact absurd h0 (by decide)

/-- Claim C7 as amended: for every non-empty content of length below
2^32, record creation copies exactly the content and appends one
terminator with refcount 1, and `Str()` on the constructed handle
returns the original content (round trip). -/
theorem claim_C7_amended (s : PoolState) (strBuf : Nat) (str : Content)
    (hw : WF s) (hne : str ≠ []) (hlt : str.length < U32) :
    StrOf (ctorStdString s strBuf str).1 (ctorStdString s strBuf str).2
      = str ∧
    (findVal s.table str = none →
      lookupRec (ctorStdString s strBuf str).1.recs
          (ctorStdString s strBuf str).2.data
        = some (SharedData.init str str.length) ∧
      (SharedData.init str str.length).payload = str ++ [0] ∧
      (SharedData.init str str.length).refCount = 1) := by
  have hz : str.length ≠ 0 := mt List.eq_nil_of_length_eq_zero hne
  have hu : u32 str.length = str.length := Nat.mod_eq_of_lt hlt
  have htake : str.take (u32 str.length) = str := by
    rw [hu]
    exact List.take_length str
  have hstep : ctorStdString s strBuf str
      = ((AddString s strBuf str (u32 str.length)).1,
         ⟨(AddString s strBuf str (u32 str.length)).2⟩) := by
    simp [ctorStdString, hz]
  constructor
  · rw [hstep]
    have hw1 : WF (AddString s strBuf str (u32 str.length)).1 :=
      WF_AddString hw (Nat.mod_le _ _)
    have hfv := AddString_findVal s strBuf str (u32 str.length)
    obtain ⟨d, hl, hdc⟩ := WF_findVal_lookup hw1 hfv
    have hnz := (hw1.2.2.2.2.1 _ (mem_recAddrs_of_lookup hl)).1
    simp only [StrOf, emptyAddr]
    rw [if_neg hnz, hl]
    show d.content = str
    rw [hdc, htake]
  · intro hmiss0
    have hmiss : findVal s.table (str.take (u32 str.length)) = none := by
      rw [htake]
      exact hmiss0
    rw [hstep, AddString_miss strBuf hmiss]
    refine ⟨?_, ?_, rfl⟩
    · simp [lookupRec, hu]
    · simp [SharedData.init, List.take_length]

/-- Witness for the amended C7 at the content "ab" interned into the
empty pool. -/
theorem claim_C7_amended_witness :
    StrOf (ctorStdString emptyPool 0 [97, 98]).1
        (ctorStdString emptyPool 0 [97, 98]).2 = [97, 98] :=
  (claim_C7_amended emptyPool 0 [97, 98] (by decide) (by decide)
    (by decide)).1

end SharedStringModel

namespace SharedStringModel

/-- Claim C3, counterexample: in a pool holding one record (address 1,
refcount 2) with two handles bound to it, move-assigning one of the
handles into the other is a no-op — the source handle is left bound to
the record, not reset to the empty singleton, contradicting the claim
that every move assignment resets the source. -/
theorem claim_C3_counterexample :
    (assignMove
      { recs := [(1, { refCount := 2, length := 1, payload := [7, 0] })],
        table := [({ ptr := KeyPtr.callerBuf 0, val := [7] }, 1)],
        nextAddr := 2 }
      ⟨1⟩ ⟨1⟩).2.2 ≠ (⟨emptyAddr⟩ : SharedString) := by decide

/-- Claim C3 as amended: move construction always steals the source's
pointer and resets the source to the empty singleton, leaving every
refcount unchanged; move assignment does the same when source and
destination hold different pointers (and then the moved record's
refcount is unchanged by the move); when they already hold the same
pointer, move assignment is a no-op that leaves both handles and the
pool unchanged (in particular the source is not reset). -/
theorem claim_C3_amended (s : PoolState) (a b : SharedString) :
    ctorMove s a = (s, ⟨a.data⟩, ⟨emptyAddr⟩) ∧
    refCountAt (ctorMove s a).1 a.data = refCountAt s a.data ∧
    (a.data = b.data → assignMove s b a = (s, b, a)) ∧
    (a.data ≠ b.data →
      assignMove s b a = (Clear s b, ⟨a.data⟩, ⟨emptyAddr⟩) ∧
      refCountAt (assignMove s b a).1 a.data = refCountAt s a.data) := by
  refine ⟨rfl, rfl, ?_, ?_⟩
  · intro h
    simp [assignMove, h]
  · intro h
    have he : assignMove s b a = (Clear s b, ⟨a.data⟩, ⟨emptyAddr⟩) := by
      simp [assignMove, h]
    refine ⟨he, ?_⟩
    rw [he]
    exact refCountAt_Clear_ne h

/-- Witness for the amended C3: moving a bound handle into an empty
handle steals the pointer and resets the source. -/
theorem claim_C3_amended_witness :
    assignMove
      { recs := [(1, { refCount := 1, length := 1, payload := [7, 0] })],
        table := [({ ptr := KeyPtr.callerBuf 0, val := [7] }, 1)],
        nextAddr := 2 }
      ⟨0⟩ ⟨1⟩
      = (Clear
          { recs := [(1, { refCount := 1, length := 1, payload := [7, 0] })],
            table := [({ ptr := KeyPtr.callerBuf 0, val := [7] }, 1)],
            nextAddr := 2 } ⟨0⟩, ⟨1⟩, ⟨emptyAddr⟩) :=
  ((claim_C3_amended
    { recs := [(1, { refCount := 1, length := 1, payload := [7, 0] })],
      table := [({ ptr := KeyPtr.callerBuf 0, val := [7] }, 1)],
      nextAddr := 2 }
    ⟨1⟩ ⟨0⟩).2.2.2 (by decide)).1

/-- Claim C4: evaluation of the code at the literal "x" (the character
array of size 2 whose elements are 'x' and the terminator).
Construction interns Size - 1 = 1 characters, but assignment interns
Size = 2 characters — terminator included — so the assigned handle is
bound to a different content value, with a different stored length,
than a freshly constructed one. -/
theorem claim_C4_theorem :
    (ctorLit emptyPool 0 [120, 0]).2.data = 1 ∧
    StrOf (ctorLit emptyPool 0 [120, 0]).1 (ctorLit emptyPool 0 [120, 0]).2
      = [120] ∧
    (lookupRec (ctorLit emptyPool 0 [120, 0]).1.recs 1).map SharedData.length
      = some 1 ∧
    StrOf (assignLit emptyPool ctorDefault 0 [120, 0]).1
        (assignLit emptyPool ctorDefault 0 [120, 0]).2 = [120, 0] ∧
    (lookupRec (assignLit emptyPool ctorDefault 0 [120, 0]).1.recs 1).map
        SharedData.length = some 2 ∧
    ([120] : Content) ≠ [120, 0] := by decide

/-- Claim C5: evaluation of `AddString` at a miss (content "ab" held in
caller buffer 5).  The key emplaced into the table is the view over the
caller's buffer — not a view over the record's own payload — even
though the record's payload is a distinct allocation holding the same
characters. -/
theorem claim_C5_theorem :
    (AddString emptyPool 5 [97, 98] 2).1.table
      = [({ ptr := KeyPtr.callerBuf 5, val := [97, 98] }, 1)] ∧
    (lookupRec (AddString emptyPool 5 [97, 98] 2).1.recs 1).map
        SharedData.payload = some [97, 98, 0] ∧
    (∀ e ∈ (AddString emptyPool 5 [97, 98] 2).1.table,
      e.1.ptr ≠ KeyPtr.payloadOf e.2) := by decide

/-- Claim C6: evaluation of the code at empty contents.  The literal ""
(array of size 1 holding just the terminator) passes the `Size == 0`
guard, so it allocates a heap record and inserts a zero-length key into
the table instead of binding the empty singleton; the default, raw,
owned-string and view paths do bind the singleton without touching the
pool. -/
theorem claim_C6_theorem :
    (ctorLit emptyPool 0 [0]).2.data = 1 ∧
    (ctorLit emptyPool 0 [0]).2.data ≠ emptyAddr ∧
    (ctorLit emptyPool 0 [0]).1.recs.length = 1 ∧
    findVal (ctorLit emptyPool 0 [0]).1.table [] = some 1 ∧
    ctorDefault.data = emptyAddr ∧
    ctorRaw emptyPool 0 [] = (emptyPool, ⟨emptyAddr⟩) ∧
    ctorStdString emptyPool 0 [] = (emptyPool, ⟨emptyAddr⟩) ∧
    assignView emptyPool ctorDefault 0 [] = (emptyPool, ⟨emptyAddr⟩) := by
  decide

theorem CopyRef_some {s : PoolState} {a : Nat} {d : SharedData}
    (hl : lookupRec s.recs a = some d) :
    CopyRef s a = ({ s with recs := setRec s.recs a d.inc }, a) := by
  simp [CopyRef, hl]

/-- Claim C9, on the modelled intent of `CopyRef` (the source spells the
increment `IncRefCounter`, a member that does not exist, so every copy
fails to compile; the model uses the declared `IncRefCount`): copying
from an empty handle binds the singleton with no pool or counter
interaction; copying from a bound handle increments that record's
refcount by one without any table lookup or table change and binds the
same record; copy assignment is a no-op when both handles already hold
the same pointer, and otherwise first releases the destination's prior
reference. -/
theorem claim_C9_theorem (s : PoolState) (src dst : SharedString)
    (d : SharedData) (hl : lookupRec s.recs src.data = some d) :
    (src.data = emptyAddr → ctorCopy s src = (s, ⟨emptyAddr⟩)) ∧
    (src.data ≠ emptyAddr →
      ctorCopy s src = ({ s with recs := setRec s.recs src.data d.inc },
        ⟨src.data⟩) ∧
      refCountAt (ctorCopy s src).1 src.data = some (u32 (d.refCount + 1)) ∧
      (ctorCopy s src).1.table = s.table) ∧
    (src.data = dst.data → assignCopy s dst src = (s, dst)) ∧
    (src.data ≠ dst.data → src.data = emptyAddr →
      assignCopy s dst src = (Clear s dst, ⟨emptyAddr⟩)) ∧
    (src.data ≠ dst.data → src.data ≠ emptyAddr →
      (assignCopy s dst src).2 = ⟨src.data⟩ ∧
      refCountAt (assignCopy s dst src).1 src.data
        = some (u32 (d.refCount + 1)) ∧
      (assignCopy s dst src).1.table = (Clear s dst).table) := by
  refine ⟨?_, ?_, ?_, ?_, ?_⟩
  · intro h
    simp [ctorCopy, h]
  · intro h
    have he : ctorCopy s src
        = ({ s with recs := setRec s.recs src.data d.inc }, ⟨src.data⟩) := by
      simp [ctorCopy, h, CopyRef_some hl]
    refine ⟨he, ?_, by rw [he]⟩
    rw [he]
    simp only [refCountAt, lookupRec_setRec_self d.inc hl]
    simp [SharedData.inc]
  · intro h
    simp [assignCopy, h]
  · intro h hz
    simp [assignCopy, h, hz]
    intro h2
    exact absurd (hz.trans h2) h
  · intro h hz
    have hl1 : lookupRec (Clear s dst).recs src.data = some d := by
      rw [lookupRec_Clear_ne h]
      exact hl
    have he : assignCopy s dst src
        = ({ (Clear s dst) with
              recs := setRec (Clear s dst).recs src.data d.inc },
           ⟨src.data⟩) := by
      simp [assignCopy, h, hz, CopyRef_some hl1]
    refine ⟨by rw [he], ?_, by rw [he]⟩
    rw [he]
    simp only [refCountAt, lookupRec_setRec_self d.inc hl1]
    simp [SharedData.inc]

/-- Witness for the C9 intent theorem: copy-constructing from a handle
bound to a record with refcount 1 yields refcount 2. -/
theorem claim_C9_witness :
    refCountAt (ctorCopy
      { recs := [(1, { refCount := 1, length := 1, payload := [7, 0] })],
        table := [({ ptr := KeyPtr.callerBuf 0, val := [7] }, 1)],
        nextAddr := 2 } ⟨1⟩).1 1 = some (u32 2) :=
  ((claim_C9_theorem
    { recs := [(1, { refCount := 1, length := 1, payload := [7, 0] })],
      table := [({ ptr := KeyPtr.callerBuf 0, val := [7] }, 1)],
      nextAddr := 2 } ⟨1⟩ ⟨0⟩
    { refCount := 1, length := 1, payload := [7, 0] }
    (by decide)).2.1 (by decide)).2.1

end SharedStringModel

namespace SharedStringModel

theorem u32_eq_of_lt {n : Nat} (h : n < U32) : u32 n = n := Nat.mod_eq_of_lt h

theorem SharedData.decVal_eq {d : SharedData} (h1 : 1 ≤ d.refCount)
    (h2 : d.refCount < U32) : d.decVal = d.refCount - 1 := by
  show (d.refCount + (U32 - 1)) % U32 = d.refCount - 1
  have hU : 0 < U32 := by decide
  have he : d.refCount + (U32 - 1) = (d.refCount - 1) + U32 := by omega
  rw [he, Nat.add_mod_right]
  exact Nat.mod_eq_of_lt (by omega)

theorem Clear_eq {s : PoolState} {h : SharedString} (hz : h.data ≠ emptyAddr) :
    Clear s h = (RemoveString s h.data).1 := by
  simp [Clear, hz]

theorem ctorN_succ (n : Nat) (s : PoolState) (strBuf : Nat) (str : Content) :
    ctorN (n + 1) s strBuf str
      = ((ctorN n (ctorRaw s strBuf str).1 strBuf str).1,
         (ctorRaw s strBuf str).2
           :: (ctorN n (ctorRaw s strBuf str).1 strBuf str).2) := rfl

theorem ctorRaw_miss (s : PoolState) (strBuf : Nat) (str : Content)
    (hne : str ≠ []) (hlt : str.length < U32)
    (hfv : findVal s.table str = none) :
    ctorRaw s strBuf str
      = ({ recs := (s.nextAddr, ⟨1, str.length, str ++ [0]⟩) :: s.recs,
           table := (⟨KeyPtr.callerBuf strBuf, str⟩, s.nextAddr) :: s.table,
           nextAddr := s.nextAddr + 1 }, ⟨s.nextAddr⟩) := by
  rw [ctorRaw_nonempty hne]
  have hv : str.take (u32 str.length) = str := by
    rw [u32_eq_of_lt hlt]
    exact List.take_length str
  rw [AddString_miss strBuf (by rw [hv]; exact hfv)]
  simp [SharedData.init, hv, u32_eq_of_lt hlt]

theorem ctorRaw_shape (r0 : List (Nat × SharedData))
    (t0 : List (ViewKey × Nat)) (nx a strBuf : Nat) (p : KeyPtr)
    (str : Content) (rc L : Nat) (pl : Content)
    (hne : str ≠ []) (hlt : str.length < U32) :
    ctorRaw { recs := (a, ⟨rc, L, pl⟩) :: r0,
              table := (⟨p, str⟩, a) :: t0, nextAddr := nx } strBuf str
      = ({ recs := (a, ⟨u32 (rc + 1), L, pl⟩) :: r0,
           table := (⟨p, str⟩, a) :: t0, nextAddr := nx }, ⟨a⟩) := by
  rw [ctorRaw_nonempty hne]
  have hv : str.take (u32 str.length) = str := by
    rw [u32_eq_of_lt hlt]
    exact List.take_length str
  have hfv : findVal ((⟨p, str⟩, a) :: t0) (str.take (u32 str.length))
      = some a := by
    rw [hv]
    simp [findVal]
  have hlk : lookupRec ((a, (⟨rc, L, pl⟩ : SharedData)) :: r0) a
      = some ⟨rc, L, pl⟩ := by
    simp [lookupRec]
  rw [AddString_hit strBuf hfv hlk]
  simp [setRec, SharedData.inc]

theorem ctorN_loop (n : Nat) (r0 : List (Nat × SharedData))
    (t0 : List (ViewKey × Nat)) (nx a strBuf : Nat) (p : KeyPtr)
    (str : Content) (hne : str ≠ []) (hlt : str.length < U32) :
    ∀ rc L : Nat, ∀ pl : Content, rc + n < U32 →
      ctorN n { recs := (a, ⟨rc, L, pl⟩) :: r0,
                table := (⟨p, str⟩, a) :: t0, nextAddr := nx } strBuf str
        = ({ recs := (a, ⟨rc + n, L, pl⟩) :: r0,
             table := (⟨p, str⟩, a) :: t0, nextAddr := nx },
           List.replicate n (⟨a⟩ : SharedString)) := by
  induction n with
  | zero =>
    intro rc L pl _
    simp [ctorN]
  | succ n ih =>
    intro rc L pl hrc
    rw [ctorN_succ]
    have hsh := ctorRaw_shape r0 t0 nx a strBuf p str rc L pl hne hlt
    simp only [hsh]
    have hu : u32 (rc + 1) = rc + 1 := u32_eq_of_lt (by omega)
    rw [hu]
    rw [ih (rc + 1) L pl (by omega)]
    have harith : rc + 1 + n = rc + (n + 1) := by omega
    rw [harith]
    simp [List.replicate_succ]

theorem Clear_shape_dec (r0 : List (Nat × SharedData))
    (t0 : List (ViewKey × Nat)) (nx a : Nat) (p : KeyPtr) (str : Content)
    (rc L : Nat) (pl : Content)
    (ha : a ≠ 0) (h1 : 2 ≤ rc) (h2 : rc < U32) :
    Clear { recs := (a, ⟨rc, L, pl⟩) :: r0,
            table := (⟨p, str⟩, a) :: t0, nextAddr := nx } ⟨a⟩
      = { recs := (a, ⟨rc - 1, L, pl⟩) :: r0,
          table := (⟨p, str⟩, a) :: t0, nextAddr := nx } := by
  have hlk : lookupRec ((a, (⟨rc, L, pl⟩ : SharedData)) :: r0) a
      = some ⟨rc, L, pl⟩ := by
    simp [lookupRec]
  have hdv : (⟨rc, L, pl⟩ : SharedData).decVal = rc - 1 :=
    SharedData.decVal_eq (show 1 ≤ rc by omega) h2
  have hnz2 : (⟨rc, L, pl⟩ : SharedData).decVal ≠ 0 := by
    rw [hdv]
    omega
  rw [Clear_eq (show (⟨a⟩ : SharedString).data ≠ emptyAddr from ha)]
  rw [RemoveString_dec hlk hnz2]
  simp [setRec, SharedData.dec, hdv]

theorem Clear_shape_last (r0 : List (Nat × SharedData))
    (t0 : List (ViewKey × Nat)) (nx a : Nat) (p : KeyPtr) (str : Content)
    (L : Nat) (pl : Content)
    (ha : a ≠ 0) (hdc : pl.take L = str) :
    Clear { recs := (a, ⟨1, L, pl⟩) :: r0,
            table := (⟨p, str⟩, a) :: t0, nextAddr := nx } ⟨a⟩
      = { recs := r0, table := t0, nextAddr := nx } := by
  have hlk : lookupRec ((a, (⟨1, L, pl⟩ : SharedData)) :: r0) a
      = some ⟨1, L, pl⟩ := by
    simp [lookupRec]
  have hdv : (⟨1, L, pl⟩ : SharedData).decVal = 0 := by
    have h := @SharedData.decVal_eq ⟨1, L, pl⟩ (Nat.le_refl 1)
      (show (1 : Nat) < U32 by decide)
    simpa using h
  rw [Clear_eq (show (⟨a⟩ : SharedString).data ≠ emptyAddr from ha)]
  rw [RemoveString_zero hlk hdv]
  simp [eraseRec, eraseVal, SharedData.content, hdc]

theorem clearN_loop (r0 : List (Nat × SharedData))
    (t0 : List (ViewKey × Nat)) (nx a : Nat) (p : KeyPtr) (str : Content)
    (L : Nat) (pl : Content) (ha : a ≠ 0) (hdc : pl.take L = str) :
    ∀ k, 1 ≤ k → k < U32 →
      clearN k { recs := (a, ⟨k, L, pl⟩) :: r0,
                 table := (⟨p, str⟩, a) :: t0, nextAddr := nx } ⟨a⟩
        = { recs := r0, table := t0, nextAddr := nx } := by
  intro k
  induction k with
  | zero =>
    intro h1 _
    exact absurd h1 (by decide)
  | succ n ih =>
    intro h1 h2
    by_cases hn : n = 0
    · subst hn
      show Clear _ _ = _
      exact Clear_shape_last r0 t0 nx a p str L pl ha hdc
    · show clearN n (Clear _ _) _ = _
      rw [Clear_shape_dec r0 t0 nx a p str (n + 1) L pl ha (by omega) h2]
      rw [show n + 1 - 1 = n from rfl]
      exact ih (by omega) (by omega)

end SharedStringModel

namespace SharedStringModel

/-- Claim C2: refcount accounting.  Constructing `k` handles from the
same non-empty content `str` (not yet interned, of length below 2^32,
with `1 ≤ k < 2^32`) leaves all `k` handles bound to one record whose
refcount is exactly `k`; destroying one handle decrements the refcount
to `k - 1` while the content stays in the pool; destroying all `k`
handles restores the pool to its original contents (the entry is gone,
a lookup of `str` misses), and a subsequent construction from `str`
allocates fresh storage at a new address. -/
theorem claim_C2 (s0 : PoolState) (buf buf2 : Nat) (str : Content) (k : Nat)
    (hne : str ≠ []) (hlt : str.length < U32) (hk : 1 ≤ k) (hklt : k < U32)
    (hfv : findVal s0.table str = none) (hnz : s0.nextAddr ≠ 0) :
    (ctorN k s0 buf str).2.length = k ∧
    (∀ h ∈ (ctorN k s0 buf str).2, h.data = s0.nextAddr) ∧
    refCountAt (ctorN k s0 buf str).1 s0.nextAddr = some k ∧
    (2 ≤ k →
      refCountAt (Clear (ctorN k s0 buf str).1 ⟨s0.nextAddr⟩) s0.nextAddr
        = some (k - 1) ∧
      findVal (Clear (ctorN k s0 buf str).1 ⟨s0.nextAddr⟩).table str
        = some s0.nextAddr) ∧
    clearN k (ctorN k s0 buf str).1 ⟨s0.nextAddr⟩
      = { recs := s0.recs, table := s0.table, nextAddr := s0.nextAddr + 1 } ∧
    findVal (clearN k (ctorN k s0 buf str).1 ⟨s0.nextAddr⟩).table str
      = none ∧
    (ctorRaw (clearN k (ctorN k s0 buf str).1 ⟨s0.nextAddr⟩) buf2 str).2
      = ⟨s0.nextAddr + 1⟩ ∧
    s0.nextAddr + 1 ≠ s0.nextAddr := by
  obtain ⟨m, rfl⟩ : ∃ m, k = m + 1 := ⟨k - 1, by omega⟩
  have hcm := ctorRaw_miss s0 buf str hne hlt hfv
  have hloop := ctorN_loop m s0.recs s0.table (s0.nextAddr + 1) s0.nextAddr
    buf (KeyPtr.callerBuf buf) str hne hlt 1 str.length (str ++ [0])
    (by omega)
  have hN1 : (ctorN (m + 1) s0 buf str).1
      = { recs := (s0.nextAddr,
            ⟨m + 1, str.length, str ++ [0]⟩) :: s0.recs,
          table := (⟨KeyPtr.callerBuf buf, str⟩, s0.nextAddr) :: s0.table,
          nextAddr := s0.nextAddr + 1 } := by
    rw [ctorN_succ]
    simp only [hcm]
    rw [hloop, Nat.add_comm 1 m]
  have hN2 : (ctorN (m + 1) s0 buf str).2
      = ⟨s0.nextAddr⟩ :: List.replicate m (⟨s0.nextAddr⟩ : SharedString) := by
    rw [ctorN_succ]
    simp only [hcm]
    rw [hloop]
  have htk : (str ++ [0]).take str.length = str := by
    rw [List.take_append_of_le_length (Nat.le_refl _)]
    exact List.take_length str
  have hclear : clearN (m + 1)
      { recs := (s0.nextAddr, ⟨m + 1, str.length, str ++ [0]⟩) :: s0.recs,
        table := (⟨KeyPtr.callerBuf buf, str⟩, s0.nextAddr) :: s0.table,
        nextAddr := s0.nextAddr + 1 } ⟨s0.nextAddr⟩
      = { recs := s0.recs, table := s0.table,
          nextAddr := s0.nextAddr + 1 } :=
    clearN_loop s0.recs s0.table (s0.nextAddr + 1) s0.nextAddr
      (KeyPtr.callerBuf buf) str str.length (str ++ [0]) hnz htk
      (m + 1) hk hklt
  refine ⟨?_, ?_, ?_, ?_, ?_, ?_, ?_, by omega⟩
  · rw [hN2]
    simp
  · rw [hN2]
    intro h hm
    rcases List.mem_cons.1 hm with h1 | h2
    · rw [h1]
    · rw [List.eq_of_mem_replicate h2]
  · rw [hN1]
    simp [refCountAt, lookupRec]
  · intro h2k
    have hdec := Clear_shape_dec s0.recs s0.table (s0.nextAddr + 1)
      s0.nextAddr (KeyPtr.callerBuf buf) str (m + 1) str.length
      (str ++ [0]) hnz (by omega) hklt
    constructor
    · rw [hN1, hdec]
      simp [refCountAt, lookupRec]
    · rw [hN1, hdec]
      simp [findVal]
  · rw [hN1]
    exact hclear
  · rw [hN1, hclear]
    exact hfv
  · rw [hN1, hclear]
    rw [ctorRaw_miss
      { recs := s0.recs, table := s0.table, nextAddr := s0.nextAddr + 1 }
      buf2 str hne hlt hfv]

/-- Witness for C2: two handles for "1" built into the empty pool give
refcount 2. -/
theorem claim_C2_witness :
    refCountAt (ctorN 2 emptyPool 0 [1]).1 emptyPool.nextAddr = some 2 :=
  (claim_C2 emptyPool 0 1 [1] 2 (by decide) (by decide) (by decide)
    (by decide) (by decide) (by decide)).2.2.1

end SharedStringModel
